import Mathlib

/-!
Verification development for the hate-speech moderation pipeline of the
`vssut-vibes` repository (`app/ml_model.py`).

The Python source is shallowly embedded below:
* `preprocessStr` / `HateSpeechDetector.preprocess_text` embed
  `HateSpeechDetector.preprocess_text` (ml_model.py lines 39-61),
* `HateSpeechDetector.prepare_features`, `.train`, `.predict` embed
  lines 63-94,
* `column_mapping` / `schemaCheck` embed the column reconciliation of
  `load_dataset` (lines 116-137),
* `load_clean` embeds the row cleanup of `load_dataset` (lines 141-151),
* `combine_datasets` embeds lines 162-199.

External libraries (nltk, textblob, sklearn, pandas) are not part of the
repository; they enter the embedding as explicit function parameters or
as documented models of their public behaviour (each marked in place).
Regular expressions are embedded as character-list scanners that follow
Python's `re.sub` semantics (leftmost match, greedy quantifiers, resume
scanning after the replaced region).  Character classes are the ASCII
fragments of Python's `\w`, `\s`, `\d`; every string the claims touch is
ASCII.
-/

namespace VssutVibes

/-! ### Character classes (ASCII fragments of Python `\w`, `\s`, `\d`) -/

/-- Python regex `\w` (ASCII part): letters, digits, underscore. -/
def isWordChar (c : Char) : Prop :=
  ('a' ≤ c ∧ c ≤ 'z') ∨ ('A' ≤ c ∧ c ≤ 'Z') ∨ ('0' ≤ c ∧ c ≤ '9') ∨ c = '_'

instance (c : Char) : Decidable (isWordChar c) := by
  unfold isWordChar; infer_instance

/-- Python regex `\s` (ASCII part): space, tab, newline, CR, VT, FF. -/
def isSpaceChar (c : Char) : Prop :=
  c = ' ' ∨ c = '\t' ∨ c = '\n' ∨ c = '\r' ∨ c = Char.ofNat 11 ∨ c = Char.ofNat 12

instance (c : Char) : Decidable (isSpaceChar c) := by
  unfold isSpaceChar; infer_instance

/-- Python regex `\d` (ASCII part): decimal digits. -/
def isDigitChar (c : Char) : Prop := '0' ≤ c ∧ c ≤ '9'

instance (c : Char) : Decidable (isDigitChar c) := by
  unfold isDigitChar; infer_instance

/-- ASCII model of Python `str.lower` applied to one character. -/
def pyLowerChar (c : Char) : Char :=
  if 'A' ≤ c ∧ c ≤ 'Z' then Char.ofNat (c.toNat + 32) else c

/-! ### A `re.sub` scanner

`scanSubF m fuel cs` scans `cs` left to right.  At each position the
matcher `m` either reports a match: `some (k, r)` (the next `k` characters
are the leftmost-longest match here, to be replaced by `r`), or `none`.
On a match the scanner emits `r` and resumes right after the matched
characters, exactly like `re.sub`; otherwise it keeps one character and
moves on.  `fuel` only serves termination; `scanSub` supplies `cs.length`,
which is always enough because every step consumes at least a character. -/

def scanSubF (m : List Char → Option (Nat × List Char)) :
    Nat → List Char → List Char
  | _, [] => []
  | 0, s => s
  | fuel + 1, c :: rest =>
    match m (c :: rest) with
    | some (k, r) => r ++ scanSubF m fuel ((c :: rest).drop (max k 1))
    | none => c :: scanSubF m fuel rest

def scanSub (m : List Char → Option (Nat × List Char)) (cs : List Char) :
    List Char :=
  scanSubF m cs.length cs

/-- `leadsWith pat cs`: `cs` starts with the literal characters `pat`. -/
def leadsWith : List Char → List Char → Bool
  | [], _ => true
  | _ :: _, [] => false
  | a :: as, b :: bs => a == b && leadsWith as bs

/-- `containsSeq pat cs`: the literal `pat` occurs contiguously in `cs`. -/
def containsSeq (pat : List Char) : List Char → Bool
  | [] => leadsWith pat []
  | c :: r => leadsWith pat (c :: r) || containsSeq pat r

def httpPat : List Char := ['h', 't', 't', 'p']

def wwwPat : List Char := ['w', 'w', 'w']

/-- Matcher for `re.sub(r'http\S+|www\S+|https\S+', '', text)`
(ml_model.py line 45).  At a given position, `http\S+` matches when the
literal `http` is followed by at least one non-space character (greedy run);
otherwise `www\S+` is tried.  The third alternative `https\S+` can never
fire where `http\S+` did not, so it adds nothing. -/
def urlM (t : List Char) : Option (Nat × List Char) :=
  if leadsWith httpPat t then
    let k := ((t.drop 4).takeWhile (fun c => decide (¬ isSpaceChar c))).length
    if 1 ≤ k then some (4 + k, []) else none
  else if leadsWith wwwPat t then
    let k := ((t.drop 3).takeWhile (fun c => decide (¬ isSpaceChar c))).length
    if 1 ≤ k then some (3 + k, []) else none
  else none

/-- Matcher for `re.sub(r'@\w+|#\w+', '', text)` (line 46). -/
def mentionM : List Char → Option (Nat × List Char)
  | [] => none
  | c :: r =>
    if (c = '@' ∨ c = '#') ∧ 1 ≤ (r.takeWhile (fun x => decide (isWordChar x))).length
    then some (1 + (r.takeWhile (fun x => decide (isWordChar x))).length, [])
    else none

/-- Matcher for `re.sub(r'(\w)\1{2,}', r'\1\1', text)` (line 48): a word
character repeated at least three times in a row (greedy: the whole run)
is replaced by exactly two copies. -/
def collapseM : List Char → Option (Nat × List Char)
  | [] => none
  | c :: r =>
    if isWordChar c ∧ 2 ≤ (r.takeWhile (fun x => x == c)).length
    then some (1 + (r.takeWhile (fun x => x == c)).length, [c, c])
    else none

/-- Matcher for `re.sub(r'\s+', ' ', text)` (line 55): a maximal whitespace
run becomes a single space. -/
def spaceM : List Char → Option (Nat × List Char)
  | [] => none
  | c :: r =>
    if isSpaceChar c
    then some (1 + (r.takeWhile (fun x => decide (isSpaceChar x))).length, [' '])
    else none

/-- Python `str.strip()`: drop whitespace from both ends. -/
def pyStrip (cs : List Char) : List Char :=
  ((cs.dropWhile (fun c => decide (isSpaceChar c))).reverse.dropWhile
    (fun c => decide (isSpaceChar c))).reverse

/-- Python `str.split()` with no separator: split on whitespace runs,
dropping empty pieces.  `acc` holds the current word reversed. -/
def pySplitAux : List Char → List Char → List (List Char)
  | [], acc => if acc = [] then [] else [acc.reverse]
  | c :: r, acc =>
    if isSpaceChar c then
      if acc = [] then pySplitAux r [] else acc.reverse :: pySplitAux r []
    else pySplitAux r (c :: acc)

def pySplit (cs : List Char) : List (List Char) := pySplitAux cs []

/-- Python `' '.join(words)` (line 61). -/
def joinSp : List String → String
  | [] => ""
  | [w] => w
  | w :: v :: ws => w ++ " " ++ joinSp (v :: ws)

/-! ### Python scalar values

`PyVal` models the scalar values flowing through a pandas column: `None`,
float NaN (both "missing" for `pd.isna`), strings, ints, and floats.
A float is carried as its exact rational value; `pyFloatStr` stands in for
Python's decimal rendering (its exact spelling is immaterial here). -/

inductive PyVal where
  | pynone
  | nan
  | pstr (s : String)
  | pint (n : Int)
  | pfloat (q : ℚ)
deriving DecidableEq, Repr

/-- `pd.isna` on a scalar. -/
def pyIsNa : PyVal → Bool
  | .pynone => true
  | .nan => true
  | _ => false

/-- Stand-in for Python's rendering of a float. -/
def pyFloatStr (q : ℚ) : String := toString q

/-- Python `str(...)` on a scalar. -/
def pyStr : PyVal → String
  | .pynone => "None"
  | .nan => "nan"
  | .pstr s => s
  | .pint n => toString n
  | .pfloat q => pyFloatStr q

/-! ### The detector

`HateSpeechDetector.__init__` (lines 25-30) stores no fitted state
(`vectorizer = None`, `model = None`), an English stopword set, a WordNet
lemmatizer and the spell-check flag.  The nltk stopword list, the
lemmatizer and TextBlob's corrector are external libraries, so they are
fields holding the (arbitrary) functions those libraries provide; the
corrector may fail internally, which `correct_spelling` (lines 32-37)
swallows, so it is `String → Option String` with `none` for "raised". -/

/-- Carrier for TF-IDF feature matrices.  No claim depends on the numeric
cell values (sklearn computes them); rows of rationals keep the type
concrete and executable. -/
abbrev Features := List (List ℚ)

abbrev ProbRow := List ℚ

/-- A fitted `TfidfVectorizer`: after `fit`, only its `transform` matters
to this code; the learned vocabulary and IDF weights are captured inside
the function. -/
structure FittedVectorizer where
  transformF : List String → Features

/-- An sklearn estimator object: its attribute names (what Python
`hasattr` sees) and its learned prediction behaviour. -/
structure SkModel where
  attrs : List String
  predictF : Features → List ℚ
  predictProbaF : Features → List ProbRow

/-- Public attributes of a fitted `sklearn.linear_model.LogisticRegression`
(per the sklearn API: it exposes `predict_proba`, and has no attribute
named `predict_probability`). -/
def logisticAttrs : List String :=
  ["classes_", "coef_", "intercept_", "n_iter_", "decision_function",
   "densify", "fit", "get_params", "predict", "predict_log_proba",
   "predict_proba", "score", "set_params", "sparsify"]

/-- Public attributes of a fitted `sklearn.naive_bayes.MultinomialNB`
(per the sklearn API: it exposes `predict_proba`, and has no attribute
named `predict_probability`). -/
def naiveBayesAttrs : List String :=
  ["class_count_", "class_log_prior_", "classes_", "feature_count_",
   "feature_log_prob_", "fit", "get_params", "partial_fit", "predict",
   "predict_joint_log_proba", "predict_log_proba", "predict_proba",
   "score", "set_params"]

/-- `LogisticRegression(max_iter=1000, random_state=42)`: the learned
behaviour is sklearn-external, supplied as the two functions. -/
def LogisticRegression (pf : Features → List ℚ) (ppf : Features → List ProbRow) :
    SkModel :=
  { attrs := logisticAttrs, predictF := pf, predictProbaF := ppf }

/-- `MultinomialNB()`: learned behaviour supplied as functions. -/
def MultinomialNB (pf : Features → List ℚ) (ppf : Features → List ProbRow) :
    SkModel :=
  { attrs := naiveBayesAttrs, predictF := pf, predictProbaF := ppf }

/-- `model.fit(X, y)` trains in place: coefficients (already carried
opaquely inside `predictF`/`predictProbaF`) are learned; the attribute set
of the object does not change.  No claim depends on the learned values. -/
def SkModel.fitted (m : SkModel) (_X : Features) (_y : List ℚ) : SkModel := m

structure HateSpeechDetector where
  vectorizer : Option FittedVectorizer
  model : Option SkModel
  lemmatize : String → String
  stop_words : List String
  use_spell_check : Bool
  spellCorrectExt : String → Option String

/-- `HateSpeechDetector.__init__(use_spell_check)` (lines 25-30): no fitted
state yet; the external linguistic resources are passed in. -/
def initDetector (lem : String → String) (stops : List String)
    (spellExt : String → Option String) (useSpell : Bool) : HateSpeechDetector :=
  { vectorizer := none, model := none, lemmatize := lem, stop_words := stops,
    use_spell_check := useSpell, spellCorrectExt := spellExt }

/-- `correct_spelling` (lines 32-37): best effort, returns the input on any
internal failure of the external corrector. -/
def HateSpeechDetector.correct_spelling (d : HateSpeechDetector) (text : String) :
    String :=
  match d.spellCorrectExt text with
  | some corrected => corrected
  | none => text

/-- The string pipeline of `preprocess_text` (lines 43-61), after the
`pd.isna` guard and `str()` coercion: lowercase; strip URLs; strip
mentions/hashtags; collapse 3+ runs of a word char to 2; non-word,
non-space chars to spaces; optional spell correction; delete digits;
squeeze whitespace and trim; split; drop stopwords and words of length
≤ 2; lemmatize; rejoin with single spaces. -/
def preprocessStr (d : HateSpeechDetector) (text : String) : String :=
  let t1 := text.data.map pyLowerChar
  let t2 := scanSub urlM t1
  let t3 := scanSub mentionM t2
  let t4 := scanSub collapseM t3
  let t5 := t4.map (fun c => if isWordChar c ∨ isSpaceChar c then c else ' ')
  let s6 := if d.use_spell_check then d.correct_spelling (String.mk t5) else String.mk t5
  let t7 := s6.data.filter (fun c => decide (¬ isDigitChar c))
  let t8 := pyStrip (scanSub spaceM t7)
  let words := (pySplit t8).map String.mk
  let kept := words.filter (fun w => decide (w ∉ d.stop_words ∧ 2 < w.length))
  joinSp (kept.map d.lemmatize)

/-- `preprocess_text` (lines 39-42 entry): `pd.isna(text)` yields `""`;
any other scalar is coerced with `str()` and normalized. -/
def HateSpeechDetector.preprocess_text (d : HateSpeechDetector) (v : PyVal) :
    String :=
  if pyIsNa v then "" else preprocessStr d (pyStr v)

/-! ### Error taxonomy

The Python code signals these situations with plain exceptions
(`AttributeError` on the `None` vectorizer/model, `ValueError` for a bad
schema and for an empty combine); the spec's §7 names them `NotFittedError`,
`SchemaError`, `EmptyCorpusError`.  The embedding uses the abstract kinds. -/

inductive PipeErr where
  | notFitted
  | schemaError
  | emptyCorpus
deriving DecidableEq, Repr

/-- A failure while loading one source (`FileNotFoundError`, schema
`ValueError`, or any other parse/IO exception, lines 153-159). -/
inductive LoadErr where
  | notFound
  | schema
  | other
deriving DecidableEq, Repr

/-! ### Feature extraction, training, prediction (lines 63-94) -/

/-- `prepare_features(texts, fit)` (lines 63-74).  With `fit=True` a new
`TfidfVectorizer` is built and fit on `texts` — vocabulary construction is
sklearn-external, so the freshly fitted vectorizer is produced by the
`tfidfFit` parameter — and stored on the detector.  With `fit=False` the
stored vectorizer is used; if `fit` was never called it is still `None`
and Python raises (`AttributeError`), the spec's `NotFittedError`. -/
def HateSpeechDetector.prepare_features (tfidfFit : List String → FittedVectorizer)
    (d : HateSpeechDetector) (texts : List String) (fit : Bool) :
    Except PipeErr (Features × HateSpeechDetector) :=
  if fit then
    let v := tfidfFit texts
    Except.ok (v.transformF texts, { d with vectorizer := some v })
  else
    match d.vectorizer with
    | none => Except.error PipeErr.notFitted
    | some v => Except.ok (v.transformF texts, d)

/-- `models.get(model_type, ...)` over the dict literal of `train`
(lines 77-80): a Python dict lookup. -/
def lookupModel : List (String × SkModel) → String → Option SkModel
  | [], _ => none
  | (k, v) :: r, s => if k = s then some v else lookupModel r s

/-- `train(X_train, y_train, model_type)` (lines 76-83): pick the variant
by name (default/fallback `logistic`), fit it, store it.  The sklearn
learned behaviours are the four function parameters. -/
def HateSpeechDetector.train (d : HateSpeechDetector)
    (lrP : Features → List ℚ) (lrPP : Features → List ProbRow)
    (nbP : Features → List ℚ) (nbPP : Features → List ProbRow)
    (X_train : Features) (y_train : List ℚ) (model_type : String) :
    HateSpeechDetector :=
  let models := [("logistic", LogisticRegression lrP lrPP),
                 ("naive_bayes", MultinomialNB nbP nbPP)]
  let m := (lookupModel models model_type).getD (LogisticRegression lrP lrPP)
  { d with model := some (m.fitted X_train y_train) }

/-- The list comprehension of `predict` (line 89): every input text is
normalized with the very same `preprocess_text` used at training time
(strings are never NA). -/
def predictPreprocess (d : HateSpeechDetector) (texts : List String) :
    List String :=
  texts.map (fun t => d.preprocess_text (PyVal.pstr t))

/-- The training-side preprocessing,
`df['content'].apply(detector.preprocess_text)` (line 224). -/
def trainingPreprocess (d : HateSpeechDetector) (contents : List PyVal) :
    List String :=
  contents.map d.preprocess_text

/-- `predict(texts)` (lines 85-94), on an already-listed input: normalize,
transform through the stored vectorizer, predict, and return
`predict_probability(...)` only if `hasattr(self.model, 'predict_probability')`
— the membership test on the object's attribute names — else `None`. -/
def HateSpeechDetector.predict (tfidfFit : List String → FittedVectorizer)
    (d : HateSpeechDetector) (texts : List String) :
    Except PipeErr (List ℚ × Option (List ProbRow)) :=
  let processed := predictPreprocess d texts
  match d.prepare_features tfidfFit processed false with
  | Except.error e => Except.error e
  | Except.ok (features, _) =>
    match d.model with
    | none => Except.error PipeErr.notFitted
    | some m =>
      let predictions := m.predictF features
      let probabilities :=
        if "predict_probability" ∈ m.attrs then some (m.predictProbaF features)
        else none
      Except.ok (predictions, probabilities)

/-! ### Dataset loading (lines 109-159) -/

/-- Candidate source columns for the canonical text column, in the order
the `if/elif` chain of lines 118-123 tries them. -/
def textCands : List String := ["Content", "text", "Text"]

/-- Candidate source columns for the canonical label column, in the order
the `if/elif` chain of lines 125-132 tries them. -/
def labelCands : List String := ["Label", "is_offensive", "label", "hate_speech"]

/-- The `column_mapping` dict built by lines 116-132: at most one text
candidate (the first present) is mapped to `content`, and at most one
label candidate (the first present) to `labels`. -/
def column_mapping (cols : List String) : List (String × String) :=
  (if "Content" ∈ cols then [("Content", "content")]
   else if "text" ∈ cols then [("text", "content")]
   else if "Text" ∈ cols then [("Text", "content")]
   else [])
  ++
  (if "Label" ∈ cols then [("Label", "labels")]
   else if "is_offensive" ∈ cols then [("is_offensive", "labels")]
   else if "label" ∈ cols then [("label", "labels")]
   else if "hate_speech" ∈ cols then [("hate_speech", "labels")]
   else [])

/-- What `df.rename(columns=mapping)` does to one column name. -/
def renameCol (m : List (String × String)) (c : String) : String :=
  match m with
  | [] => c
  | (a, b) :: r => if c = a then b else renameCol r c

/-- `df.rename(columns=mapping)` on the column list (line 134). -/
def renameColumns (m : List (String × String)) (cols : List String) :
    List String :=
  cols.map (renameCol m)

/-- Lines 134-137: rename, then fail (`ValueError`, the spec's
`SchemaError`) unless both canonical columns are present. -/
def schemaCheck (cols : List String) : Except PipeErr (List String) :=
  if "content" ∈ renameColumns (column_mapping cols) cols
      ∧ "labels" ∈ renameColumns (column_mapping cols) cols
  then Except.ok (renameColumns (column_mapping cols) cols)
  else Except.error PipeErr.schemaError

/-- Spec-side formulation of the priority rule: the first candidate name
present among the columns (§4.1 "fixed priority list ... first match
wins"). -/
def firstPresent : List String → List String → Option String
  | [], _ => none
  | c :: r, cols => if c ∈ cols then some c else firstPresent r cols

/-- Parse a decimal numeral the way `pd.to_numeric` parses a string cell:
optional sign, then digits with an optional fractional part.  (Exponents
and surrounding whitespace are not used by any claim and are left out;
anything else fails.) -/
def digitsToNat (ds : List Char) : Nat :=
  ds.foldl (fun a c => a * 10 + (c.toNat - 48)) 0

def parsePyNumber (s : String) : Option ℚ :=
  let cs := s.data
  let sgn : ℚ := match cs with
    | '-' :: _ => -1
    | _ => 1
  let cs1 : List Char := match cs with
    | '-' :: r => r
    | '+' :: r => r
    | _ => cs
  let ip := cs1.takeWhile (fun c => decide (isDigitChar c))
  let rest := cs1.dropWhile (fun c => decide (isDigitChar c))
  match rest with
  | [] => if ip = [] then none else some (sgn * digitsToNat ip)
  | '.' :: fr =>
    let fp := fr.takeWhile (fun c => decide (isDigitChar c))
    if fr.dropWhile (fun c => decide (isDigitChar c)) ≠ [] then none
    else if ip = [] ∧ fp = [] then none
    else some (sgn * ((digitsToNat ip : ℚ) + (digitsToNat fp : ℚ) / 10 ^ fp.length))
  | _ => none

/-- `pd.to_numeric(x, errors='coerce')` on one cell: numbers pass through,
numeric strings parse, everything else (including missing) becomes NaN
(`none`). -/
def to_numeric : PyVal → Option ℚ
  | .pynone => none
  | .nan => none
  | .pint n => some (n : ℚ)
  | .pfloat q => some q
  | .pstr s => parsePyNumber s

/-- A canonical record after loading: `content` cell and numeric label. -/
abbrev CanonRec := PyVal × ℚ

/-- The row cleanup of `load_dataset` (lines 141-151), applied to the
`(content, labels)` rows after column mapping: drop rows whose label is
literally the header sentinel `'Label'` or `'is_offensive'`; coerce labels
with `pd.to_numeric(errors='coerce')`; drop rows with a missing content or
a missing (unparseable) label. -/
def load_clean (rows : List (PyVal × PyVal)) : List CanonRec :=
  ((((rows.filter (fun r => decide (r.2 ≠ PyVal.pstr "Label"))).filter
      (fun r => decide (r.2 ≠ PyVal.pstr "is_offensive"))).map
      (fun r => (r.1, to_numeric r.2))).filterMap (fun r =>
    match r.2 with
    | some q => if pyIsNa r.1 then none else some (r.1, q)
    | none => none))

/-! ### Combining datasets (lines 162-199) -/

/-- `drop_duplicates(subset=['content'], keep='first')` (line 194): keep a
record only if its `content` has not been seen yet. -/
def dropDupFirst (seen : List PyVal) : List CanonRec → List CanonRec
  | [] => []
  | r :: rest =>
    if r.1 ∈ seen then dropDupFirst seen rest
    else r :: dropDupFirst (r.1 :: seen) rest

/-- `combine_datasets(csv_paths)` (lines 162-199).  Loading each path is
I/O, so each source arrives as its load outcome.  The loop appends the
successfully loaded frames in order and swallows failures with a warning
(lines 169-177); if none loaded it raises `ValueError` — the spec's
`EmptyCorpusError` (lines 179-180); otherwise it concatenates and
deduplicates on `content`, keeping the first occurrence (lines 182-194). -/
def combine_datasets (loads : List (Except LoadErr (List CanonRec))) :
    Except PipeErr (List CanonRec) :=
  let all_datasets := loads.filterMap (fun r =>
    match r with
    | Except.ok df => some df
    | Except.error _ => none)
  if all_datasets = [] then Except.error PipeErr.emptyCorpus
  else Except.ok (dropDupFirst [] all_datasets.flatten)

/-! ### Example fixtures used by witnesses and counterexamples

The external linguistic resources are instantiated concretely here:
`exStops` lists representative members of nltk's English stopword list
(the full list has 179 entries; none of the tokens below that matter to
any statement, such as `httpx`, `good` or `dog`, is in the real list
either); `exLemmatize` is the identity, matching WordNet's documented
behaviour on words that are not in its dictionary (it returns them
unchanged, and the tokens used in concrete statements are such words or
are already base forms); the corrector always fails over to pass-through,
i.e. spell checking effectively off. -/

def exStops : List String :=
  ["i", "me", "my", "we", "our", "you", "the", "a", "an", "is", "are",
   "and", "of", "to", "in", "it", "this", "that"]

def exLemmatize : String → String := fun w => w

def exDetector : HateSpeechDetector :=
  initDetector exLemmatize exStops (fun _ => none) false

def exVectorizer : FittedVectorizer :=
  { transformF := fun texts => texts.map (fun _ => [1]) }

def exTfidfFit : List String → FittedVectorizer := fun _ => exVectorizer

def exTrainedDetector : HateSpeechDetector :=
  { exDetector with
    vectorizer := some exVectorizer,
    model := some (LogisticRegression (fun f => f.map (fun _ => 1))
      (fun f => f.map (fun _ => [0, 1]))) }

/-- Concrete rows exercising the spec's label-coercion examples, plus a
numeric non-binary label. -/
def c2ExampleRows : List (PyVal × PyVal) :=
  [(PyVal.pstr "a", PyVal.pstr "1"), (PyVal.pstr "b", PyVal.pint 1),
   (PyVal.pstr "c", PyVal.pfloat 1), (PyVal.pstr "d", PyVal.pstr "Label"),
   (PyVal.pstr "e", PyVal.pstr "yes"), (PyVal.pstr "f", PyVal.pstr ""),
   (PyVal.pstr "g", PyVal.pstr "2")]

/-- Step 3 of the normalizer in isolation: the repeated-character
collapser `re.sub(r'(\w)\1{2,}', r'\1\1', text)` (line 48) as a map on
strings. -/
def collapseStep (s : String) : String := String.mk (scanSub collapseM s.data)

/-- All suffixes of a character list — the positions a `re.sub` scan
visits. -/
def tails : List Char → List (List Char)
  | [] => [[]]
  | c :: r => (c :: r) :: tails r

/-- Character-level counterpart of `joinSp`: tokens interleaved with
single spaces. -/
def joinT : List (List Char) → List Char
  | [] => []
  | [w] => w
  | w :: v :: ts => w ++ ' ' :: joinT (v :: ts)

/-- `hasTripleB cs`: some character occurs at three consecutive
positions of `cs`. -/
def hasTripleB : List Char → Bool
  | a :: b :: c :: r => (a == b && b == c) || hasTripleB (b :: c :: r)
  | _ => false

/-- Characters a fully normalized token can be made of without being
changed by a second normalization pass: lowercase ASCII letters and the
underscore (word characters that are not digits and are fixed by
lowercasing). -/
def tokChar (c : Char) : Prop := ('a' ≤ c ∧ c ≤ 'z') ∨ c = '_'

instance (c : Char) : Decidable (tokChar c) := by
  unfold tokChar; infer_instance

/-- A token on which a normalization pass is provably a no-op: longer than
2, not a stopword, a fixed point of the lemmatizer, made of `tokChar`
characters, with no three identical consecutive characters and no `http`
fragment (the latter two can re-trigger the run-collapsing and
URL-stripping steps). -/
def goodToken (d : HateSpeechDetector) (w : String) : Prop :=
  2 < w.length ∧ w ∉ d.stop_words ∧ d.lemmatize w = w
  ∧ (∀ c ∈ w.data, tokChar c)
  ∧ hasTripleB w.data = false
  ∧ containsSeq httpPat w.data = false

instance (d : HateSpeechDetector) (w : String) : Decidable (goodToken d w) := by
  unfold goodToken; infer_instance

/-! ### C10 — totality of the normalization entry point over scalars -/

/-- **C10.** The normalization entry point is total over arbitrary scalar
inputs (its result type is `String`; no error case exists): a `None` or
NaN (missing) input yields the empty string, and a string, integer or
float input is coerced with `str()` and normalized through the ordinary
string pipeline. -/
theorem c10_preprocess_total_on_scalars (d : HateSpeechDetector) :
    d.preprocess_text PyVal.pynone = ""
    ∧ d.preprocess_text PyVal.nan = ""
    ∧ (∀ s : String, d.preprocess_text (PyVal.pstr s) = preprocessStr d s)
    ∧ (∀ n : Int, d.preprocess_text (PyVal.pint n) = preprocessStr d (toString n))
    ∧ (∀ q : ℚ, d.preprocess_text (PyVal.pfloat q) = preprocessStr d (pyFloatStr q)) := by
  refine ⟨rfl, rfl, fun s => ?_, fun n => ?_, fun q => ?_⟩ <;>
    simp [HateSpeechDetector.preprocess_text, pyIsNa, pyStr]

/-! ### C7 — one pure normalization function on both paths -/

/-- **C7.** The very same `preprocess_text` is applied on the training
path (`df['content'].apply(detector.preprocess_text)`) and on the
inference path (the comprehension inside `predict`); the function is pure
(in this embedding it is a mathematical function of the detector's
configuration and the input — two evaluations coincide), and it does not
read the mutable fit state (`vectorizer`, `model`), so fitting or training
cannot make training-time and inference-time normalization diverge. -/
theorem c7_same_normalizer_both_paths (d : HateSpeechDetector) :
    (∀ texts : List String,
      predictPreprocess d texts = trainingPreprocess d (texts.map PyVal.pstr))
    ∧ (∀ v : PyVal, d.preprocess_text v = d.preprocess_text v)
    ∧ (∀ (vec : Option FittedVectorizer) (mdl : Option SkModel) (v : PyVal),
      ({ d with vectorizer := vec, model := mdl } : HateSpeechDetector).preprocess_text v
        = d.preprocess_text v) := by
  refine ⟨fun texts => ?_, fun _ => rfl, fun _ _ _ => rfl⟩
  simp [predictPreprocess, trainingPreprocess]

/-! ### C3 — transform/predict before fit fails with `NotFittedError` -/

/-- **C3.** On a pipeline instance on which `fit` has never been called
the stored vectorizer is still `None`, so `prepare_features(_, fit=False)`
(the `transform` path) fails, and therefore `predict` before any training
fails the same way, with the not-fitted error (Python: `AttributeError` on
the `None` vectorizer; the spec's §7 taxonomy name for this situation is
`NotFittedError`). -/
theorem c3_transform_before_fit_fails (tf : List String → FittedVectorizer)
    (d : HateSpeechDetector) (texts : List String)
    (h : d.vectorizer = none) :
    d.prepare_features tf texts false = Except.error PipeErr.notFitted
    ∧ d.predict tf texts = Except.error PipeErr.notFitted := by
  constructor
  · simp [HateSpeechDetector.prepare_features, h]
  · simp [HateSpeechDetector.predict, HateSpeechDetector.prepare_features, h]

/-- Witness for C3: a freshly constructed detector (`__init__` leaves
`vectorizer = None`) rejects `predict(["neutral text"])`. -/
theorem c3_witness :
    exDetector.predict exTfidfFit ["neutral text"]
      = Except.error PipeErr.notFitted :=
  (c3_transform_before_fit_fails exTfidfFit exDetector ["neutral text"] rfl).2

/-! ### C1 — the probability channel of `predict` -/

/-- **C1 (divergence).** Both supported classifier variants are
probability-capable — sklearn's `LogisticRegression` and `MultinomialNB`
both expose `predict_proba` — yet `predict` returns `None` for the
probabilities for *every* trained pipeline, because line 92 gates on
`hasattr(self.model, 'predict_probability')`, an attribute name no sklearn
estimator has (the real method is `predict_proba`).  The claim (and the
spec) say the probability is returned whenever the variant supports it;
the code can never return one. -/
theorem c1_probabilities_always_none (tf : List String → FittedVectorizer)
    (d : HateSpeechDetector) (v : FittedVectorizer) (m : SkModel)
    (texts : List String)
    (hv : d.vectorizer = some v) (hm : d.model = some m)
    (hvariant : m.attrs = logisticAttrs ∨ m.attrs = naiveBayesAttrs) :
    "predict_proba" ∈ m.attrs
    ∧ d.predict tf texts
        = Except.ok (m.predictF (v.transformF (predictPreprocess d texts)), none) := by
  have hno : "predict_probability" ∉ m.attrs := by
    rcases hvariant with h | h <;> rw [h] <;> decide
  have hyes : "predict_proba" ∈ m.attrs := by
    rcases hvariant with h | h <;> rw [h] <;> decide
  refine ⟨hyes, ?_⟩
  simp [HateSpeechDetector.predict, HateSpeechDetector.prepare_features, hv, hm, hno]

/-- Witness for C1: a concretely trained logistic pipeline yields labels
but a `None` probability on a concrete input. -/
theorem c1_witness :
    exTrainedDetector.predict exTfidfFit ["you are awful"]
      = Except.ok ([(1 : ℚ)], none) := by
  have h := c1_probabilities_always_none exTfidfFit exTrainedDetector
    exVectorizer
    (LogisticRegression (fun f => f.map (fun _ => 1)) (fun f => f.map (fun _ => [0, 1])))
    ["you are awful"] rfl rfl (Or.inl rfl)
  exact h.2

/-! ### C2 — label coercion -/

theorem parse_one : parsePyNumber "1" = some 1 := by
  have h : parsePyNumber "1" = some ((1 : ℚ) * ((1 : ℕ) : ℚ)) := rfl
  rw [h]; norm_num

theorem parse_one_point_zero : parsePyNumber "1.0" = some 1 := by
  have h : parsePyNumber "1.0"
      = some ((1 : ℚ) * (((1 : ℕ) : ℚ) + ((0 : ℕ) : ℚ) / 10 ^ (1 : ℕ))) := rfl
  rw [h]; norm_num

theorem parse_two : parsePyNumber "2" = some 2 := by
  have h : parsePyNumber "2" = some ((1 : ℚ) * ((2 : ℕ) : ℚ)) := rfl
  rw [h]; norm_num

theorem parse_yes : parsePyNumber "yes" = none := rfl

theorem parse_empty : parsePyNumber "" = none := rfl

/-- **C2 (counterexample).** The claim says every loaded label is exactly
0 or 1 and anything not coercible to {0,1} is dropped.  But the code only
coerces to *numeric*: a row whose label is the string `"2"` parses
numerically and survives with label 2 ∉ {0,1}. -/
theorem c2_counterexample :
    load_clean [(PyVal.pstr "x", PyVal.pstr "2")] = [(PyVal.pstr "x", (2 : ℚ))]
    ∧ (2 : ℚ) ≠ 0 ∧ (2 : ℚ) ≠ 1 := by
  refine ⟨?_, by norm_num, by norm_num⟩
  have h : load_clean [(PyVal.pstr "x", PyVal.pstr "2")]
      = [(PyVal.pstr "x", (1 : ℚ) * ((2 : ℕ) : ℚ))] := rfl
  rw [h]; norm_num

/-- **C2 (amended).** After loading, every surviving record has a
non-missing content and a label that is the successful numeric coercion of
an original label that was not a header sentinel — in particular `"1"`,
`1` and `1.0` coerce to `1`, and `"Label"`, `"yes"`, `""` are dropped
rather than defaulted — but the label is *not* forced into {0,1}: a
numeric label such as `"2"` is retained with value 2. -/
theorem c2_labels_numeric_not_binary :
    (∀ (rows : List (PyVal × PyVal)) (p : CanonRec), p ∈ load_clean rows →
      pyIsNa p.1 = false
      ∧ ∃ v : PyVal, (p.1, v) ∈ rows ∧ to_numeric v = some p.2
          ∧ v ≠ PyVal.pstr "Label" ∧ v ≠ PyVal.pstr "is_offensive")
    ∧ load_clean c2ExampleRows
      = [(PyVal.pstr "a", 1), (PyVal.pstr "b", 1), (PyVal.pstr "c", 1),
         (PyVal.pstr "g", 2)] := by
  constructor
  · intro rows p hp
    unfold load_clean at hp
    obtain ⟨a, ha, hfa⟩ := List.mem_filterMap.mp hp
    obtain ⟨b, hb, rfl⟩ := List.mem_map.mp ha
    obtain ⟨hb1, hsent2⟩ := List.mem_filter.mp hb
    obtain ⟨hbrows, hsent1⟩ := List.mem_filter.mp hb1
    cases hq : to_numeric b.2 with
    | none => rw [hq] at hfa; cases hfa
    | some q =>
      rw [hq] at hfa
      by_cases hna : pyIsNa b.1 = true
      · simp [hna] at hfa
      · simp only [Bool.not_eq_true] at hna
        simp only [hna, Bool.false_eq_true, if_false, Option.some.injEq] at hfa
        subst hfa
        refine ⟨hna, b.2, ?_, hq, ?_, ?_⟩
        · exact hbrows
        · exact of_decide_eq_true hsent1
        · exact of_decide_eq_true hsent2
  · have h : load_clean c2ExampleRows
        = [(PyVal.pstr "a", (1 : ℚ) * ((1 : ℕ) : ℚ)),
           (PyVal.pstr "b", ((1 : ℤ) : ℚ)),
           (PyVal.pstr "c", (1 : ℚ)),
           (PyVal.pstr "g", (1 : ℚ) * ((2 : ℕ) : ℚ))] := rfl
    rw [h]; norm_num

/-- Witness for C2 (amended): the general part applied to the concrete
rows and the surviving record `("a", 1)`. -/
theorem c2_witness :
    pyIsNa (PyVal.pstr "a") = false
    ∧ ∃ v : PyVal, (PyVal.pstr "a", v) ∈ c2ExampleRows
        ∧ to_numeric v = some ((1 : ℚ))
        ∧ v ≠ PyVal.pstr "Label" ∧ v ≠ PyVal.pstr "is_offensive" := by
  have hmem : ((PyVal.pstr "a", (1 : ℚ)) : CanonRec) ∈ load_clean c2ExampleRows := by
    rw [c2_labels_numeric_not_binary.2]; simp
  exact c2_labels_numeric_not_binary.1 c2ExampleRows (PyVal.pstr "a", 1) hmem

/-! ### C4 — deduplication keeps the first occurrence -/

theorem dropDupFirst_filter_of_mem (c : PyVal) :
    ∀ (xs : List CanonRec) (seen : List PyVal), c ∈ seen →
      (dropDupFirst seen xs).filter (fun r => decide (r.1 = c)) = []
  | [], _, _ => rfl
  | r :: rest, seen, hc => by
    rw [dropDupFirst]
    by_cases h : r.1 ∈ seen
    · rw [if_pos h]; exact dropDupFirst_filter_of_mem c rest seen hc
    · rw [if_neg h]
      have hne : ¬ (r.1 = c) := fun he => h (he ▸ hc)
      rw [List.filter_cons_of_neg (by simpa using hne)]
      exact dropDupFirst_filter_of_mem c rest (r.1 :: seen) (List.mem_cons_of_mem _ hc)

theorem dropDupFirst_filter_take (c : PyVal) :
    ∀ (xs : List CanonRec) (seen : List PyVal), c ∉ seen →
      (dropDupFirst seen xs).filter (fun r => decide (r.1 = c))
        = (xs.filter (fun r => decide (r.1 = c))).take 1
  | [], _, _ => rfl
  | r :: rest, seen, hc => by
    rw [dropDupFirst]
    by_cases h : r.1 ∈ seen
    · rw [if_pos h]
      have hne : ¬ (r.1 = c) := fun he => hc (he ▸ h)
      rw [List.filter_cons_of_neg (by simpa using hne)]
      exact dropDupFirst_filter_take c rest seen hc
    · rw [if_neg h]
      by_cases he : r.1 = c
      · rw [List.filter_cons_of_pos (by simpa using he),
          List.filter_cons_of_pos (by simpa using he)]
        have : (dropDupFirst (r.1 :: seen) rest).filter (fun r => decide (r.1 = c)) = [] :=
          dropDupFirst_filter_of_mem c rest (r.1 :: seen) (he ▸ List.mem_cons_self r.1 seen)
        rw [this]
        simp
      · rw [List.filter_cons_of_neg (by simpa using he),
          List.filter_cons_of_neg (by simpa using he)]
        have hc2 : c ∉ r.1 :: seen := by
          intro hmem
          rcases List.mem_cons.mp hmem with h1 | h1
          · exact he h1.symm
          · exact hc h1
        exact dropDupFirst_filter_take c rest (r.1 :: seen) hc2

theorem dropDupFirst_sublist :
    ∀ (xs : List CanonRec) (seen : List PyVal), List.Sublist (dropDupFirst seen xs) xs
  | [], _ => List.Sublist.refl []
  | r :: rest, seen => by
    rw [dropDupFirst]
    by_cases h : r.1 ∈ seen
    · rw [if_pos h]; exact (dropDupFirst_sublist rest seen).cons r
    · rw [if_neg h]; exact (dropDupFirst_sublist rest (r.1 :: seen)).cons₂ r

theorem dropDupFirst_not_mem_fst (c : PyVal) (xs : List CanonRec)
    (seen : List PyVal) (hc : c ∈ seen) :
    c ∉ (dropDupFirst seen xs).map Prod.fst := by
  intro hmem
  obtain ⟨r, hr, hrc⟩ := List.mem_map.mp hmem
  have : r ∈ (dropDupFirst seen xs).filter (fun r => decide (r.1 = c)) :=
    List.mem_filter.mpr ⟨hr, by simpa using hrc⟩
  rw [dropDupFirst_filter_of_mem c xs seen hc] at this
  cases this

theorem dropDupFirst_nodup_fst :
    ∀ (xs : List CanonRec) (seen : List PyVal),
      ((dropDupFirst seen xs).map Prod.fst).Nodup
  | [], _ => by simp [dropDupFirst]
  | r :: rest, seen => by
    rw [dropDupFirst]
    by_cases h : r.1 ∈ seen
    · rw [if_pos h]; exact dropDupFirst_nodup_fst rest seen
    · rw [if_neg h]
      rw [List.map_cons]
      exact List.Nodup.cons
        (dropDupFirst_not_mem_fst r.1 rest (r.1 :: seen) (List.mem_cons_self _ _))
        (dropDupFirst_nodup_fst rest (r.1 :: seen))

/-- **C4.** Combining sources `[A, B]` concatenates them in source order
and deduplicates on exact `content` equality keeping the first occurrence:
if `B` contains a record `y` whose content equals that of a record `x` of
`A` (with `x` the only record of `A` carrying that content), the combined
corpus contains exactly one record with that content — namely `x`, with
`A`'s label; moreover the output lists each content once and is an
order-preserving selection of the concatenation. -/
theorem c4_dedup_keeps_first (A B : List CanonRec) (x y : CanonRec)
    (hx : x ∈ A) (hy : y ∈ B) (hcontent : y.1 = x.1)
    (huniq : A.filter (fun r => decide (r.1 = x.1)) = [x]) :
    combine_datasets [Except.ok A, Except.ok B]
      = Except.ok (dropDupFirst [] (A ++ B))
    ∧ (dropDupFirst [] (A ++ B)).filter (fun r => decide (r.1 = x.1)) = [x]
    ∧ ((dropDupFirst [] (A ++ B)).map Prod.fst).Nodup
    ∧ List.Sublist (dropDupFirst [] (A ++ B)) (A ++ B) := by
  refine ⟨?_, ?_, dropDupFirst_nodup_fst _ _, dropDupFirst_sublist _ _⟩
  · have hx' : x ∈ A ++ B := List.mem_append_left B hx
    simp [combine_datasets]
  · rw [dropDupFirst_filter_take x.1 (A ++ B) [] (List.not_mem_nil x.1),
      List.filter_append, huniq]
    simp

/-- Witness for C4: source A's `("a", 0)` wins over source B's duplicate
`("a", 1)`. -/
theorem c4_witness :
    combine_datasets [Except.ok [(PyVal.pstr "a", (0 : ℚ)), (PyVal.pstr "b", 0)],
        Except.ok [(PyVal.pstr "a", (1 : ℚ))]]
      = Except.ok (dropDupFirst []
          ([(PyVal.pstr "a", (0 : ℚ)), (PyVal.pstr "b", 0)] ++ [(PyVal.pstr "a", 1)]))
    ∧ (dropDupFirst []
        ([(PyVal.pstr "a", (0 : ℚ)), (PyVal.pstr "b", 0)] ++ [(PyVal.pstr "a", 1)])).filter
        (fun r => decide (r.1 = (PyVal.pstr "a", (0 : ℚ)).1)) = [(PyVal.pstr "a", 0)]
    ∧ ((dropDupFirst []
        ([(PyVal.pstr "a", (0 : ℚ)), (PyVal.pstr "b", 0)] ++ [(PyVal.pstr "a", 1)])).map
        Prod.fst).Nodup
    ∧ List.Sublist (dropDupFirst []
        ([(PyVal.pstr "a", (0 : ℚ)), (PyVal.pstr "b", 0)] ++ [(PyVal.pstr "a", 1)]))
        ([(PyVal.pstr "a", (0 : ℚ)), (PyVal.pstr "b", 0)] ++ [(PyVal.pstr "a", 1)]) :=
  c4_dedup_keeps_first
    [(PyVal.pstr "a", 0), (PyVal.pstr "b", 0)] [(PyVal.pstr "a", 1)]
    (PyVal.pstr "a", 0) (PyVal.pstr "a", 1)
    (by decide) (by decide) (by decide) (by decide)

/-! ### C5 — per-source failure tolerance of the Combiner -/

/-- **C5.** A source that fails to load is simply skipped — combining is
unchanged by deleting a failed source from the list — and the combine
fails (with the empty-corpus error, Python's `ValueError("No datasets were
successfully loaded!")`) precisely when no source loaded successfully. -/
theorem c5_combine_skips_failures (loads : List (Except LoadErr (List CanonRec))) :
    (combine_datasets loads = Except.error PipeErr.emptyCorpus
      ↔ ∀ df : List CanonRec, Except.ok df ∉ loads)
    ∧ ∀ (pre post : List (Except LoadErr (List CanonRec))) (e : LoadErr),
        loads = pre ++ Except.error e :: post →
        combine_datasets loads = combine_datasets (pre ++ post) := by
  constructor
  · by_cases h : loads.filterMap (fun r =>
        match r with
        | Except.ok df => some df
        | Except.error _ => none) = []
    · simp only [combine_datasets, h, if_pos]
      simp only [true_iff, reduceIte]
      intro df hdf
      have := (List.filterMap_eq_nil_iff.mp h) _ hdf
      simp at this
    · simp only [combine_datasets, if_neg h]
      constructor
      · intro hco; cases hco
      · intro hall
        refine (h (List.filterMap_eq_nil_iff.mpr fun a ha => ?_)).elim
        cases a with
        | ok df => exact absurd ha (hall df)
        | error e => rfl
  · rintro pre post e rfl
    have hfm : (pre ++ Except.error e :: post).filterMap (fun r =>
        match r with
        | Except.ok df => some df
        | Except.error _ => none)
      = (pre ++ post).filterMap (fun r =>
        match r with
        | Except.ok df => some df
        | Except.error (_ : LoadErr) => none) := by
      simp [List.filterMap_append]
    simp only [combine_datasets, hfm]

/-- Witness for C5: a missing first source is skipped and combining
continues with the remaining source. -/
theorem c5_witness :
    combine_datasets [Except.error LoadErr.notFound, Except.ok [(PyVal.pstr "a", (0 : ℚ))]]
      = combine_datasets ([] ++ [Except.ok [(PyVal.pstr "a", (0 : ℚ))]]) :=
  (c5_combine_skips_failures _).2 [] [Except.ok [(PyVal.pstr "a", 0)]]
    LoadErr.notFound rfl

/-! ### C6 — column alias mapping and schema check -/

theorem firstPresent_mem {cands cols : List String} {c : String}
    (h : firstPresent cands cols = some c) : c ∈ cols ∧ c ∈ cands := by
  induction cands with
  | nil => cases h
  | cons a r ih =>
    rw [firstPresent] at h
    by_cases ha : a ∈ cols
    · rw [if_pos ha] at h
      cases h
      exact ⟨ha, List.mem_cons_self _ _⟩
    · rw [if_neg ha] at h
      obtain ⟨h1, h2⟩ := ih h
      exact ⟨h1, List.mem_cons_of_mem a h2⟩

/-- The mapping built by the `if/elif` chains equals "first present
candidate, in priority order, mapped to the canonical name". -/
theorem column_mapping_eq_firstPresent (cols : List String) :
    column_mapping cols
      = (match firstPresent textCands cols with
          | some c => [(c, "content")]
          | none => ([] : List (String × String)))
        ++ (match firstPresent labelCands cols with
          | some c => [(c, "labels")]
          | none => ([] : List (String × String))) := by
  unfold column_mapping firstPresent textCands labelCands
  split_ifs <;> simp_all [firstPresent]

theorem content_mem_renamed (cols : List String) :
    "content" ∈ renameColumns (column_mapping cols) cols
      ↔ ("content" ∈ cols ∨ firstPresent textCands cols ≠ none) := by
  rw [renameColumns, column_mapping_eq_firstPresent]
  cases ht : firstPresent textCands cols with
  | some tc =>
    obtain ⟨htcols, htcand⟩ := firstPresent_mem ht
    refine iff_of_true ?_ (Or.inr (by simp))
    refine List.mem_map.mpr ⟨tc, htcols, ?_⟩
    cases hl : firstPresent labelCands cols <;> simp [renameCol]
  | none =>
    cases hl : firstPresent labelCands cols with
    | some lc =>
      obtain ⟨hlcols, hlcand⟩ := firstPresent_mem hl
      have hlne : lc ≠ "content" := by
        fin_cases hlcand <;> decide
      constructor
      · intro hmem
        obtain ⟨a, ha, hren⟩ := List.mem_map.mp hmem
        rw [List.nil_append] at hren
        by_cases hal : a = lc
        · simp only [renameCol] at hren
          rw [if_pos hal] at hren
          exact absurd hren (by decide)
        · simp only [renameCol, if_neg hal] at hren
          exact Or.inl (hren ▸ ha)
      · rintro (hmem | hne)
        · refine List.mem_map.mpr ⟨"content", hmem, ?_⟩
          rw [List.nil_append]
          simp only [renameCol]
          rw [if_neg (fun he => hlne (by simpa using he.symm))]
        · exact absurd rfl hne
    | none =>
      constructor
      · intro hmem
        refine Or.inl ?_
        simpa [renameCol] using hmem
      · rintro (hmem | hne)
        · simpa [renameCol] using hmem
        · exact absurd rfl hne

theorem labels_mem_renamed (cols : List String) :
    "labels" ∈ renameColumns (column_mapping cols) cols
      ↔ ("labels" ∈ cols ∨ firstPresent labelCands cols ≠ none) := by
  rw [renameColumns, column_mapping_eq_firstPresent]
  cases hl : firstPresent labelCands cols with
  | some lc =>
    obtain ⟨hlcols, hlcand⟩ := firstPresent_mem hl
    refine iff_of_true ?_ (Or.inr (by simp))
    refine List.mem_map.mpr ⟨lc, hlcols, ?_⟩
    cases ht : firstPresent textCands cols with
    | none => simp [renameCol]
    | some tc =>
      obtain ⟨htcols, htcand⟩ := firstPresent_mem ht
      have hne : lc ≠ tc := by
        fin_cases hlcand <;> fin_cases htcand <;> decide
      simp [renameCol, if_neg hne]
  | none =>
    cases ht : firstPresent textCands cols with
    | some tc =>
      obtain ⟨htcols, htcand⟩ := firstPresent_mem ht
      have htne : tc ≠ "labels" := by
        fin_cases htcand <;> decide
      constructor
      · intro hmem
        obtain ⟨a, ha, hren⟩ := List.mem_map.mp hmem
        rw [List.append_nil] at hren
        by_cases hat : a = tc
        · simp only [renameCol] at hren
          rw [if_pos hat] at hren
          exact absurd hren (by decide)
        · simp only [renameCol, if_neg hat] at hren
          exact Or.inl (hren ▸ ha)
      · rintro (hmem | hne)
        · refine List.mem_map.mpr ⟨"labels", hmem, ?_⟩
          rw [List.append_nil]
          simp only [renameCol]
          rw [if_neg (fun he => htne (by simpa using he.symm))]
        · exact absurd rfl hne
    | none =>
      constructor
      · intro hmem
        refine Or.inl ?_
        simpa [renameCol] using hmem
      · rintro (hmem | hne)
        · simpa [renameCol] using hmem
        · exact absurd rfl hne

/-- **C6.** The loader maps source columns to the canonical names by the
fixed priority lists `Content, text, Text` (→ text column) and
`Label, is_offensive, label, hate_speech` (→ label column), first match
winning with no merging (the built mapping holds at most one entry per
canonical target, the first present candidate); and it fails with the
schema error (Python `ValueError`, spec `SchemaError`) exactly when, after
the renaming, the canonical text and label columns are not both present. -/
theorem c6_column_mapping_priority (cols : List String) :
    column_mapping cols
      = (match firstPresent textCands cols with
          | some c => [(c, "content")]
          | none => ([] : List (String × String)))
        ++ (match firstPresent labelCands cols with
          | some c => [(c, "labels")]
          | none => ([] : List (String × String)))
    ∧ (schemaCheck cols = Except.error PipeErr.schemaError
        ↔ ¬ (("content" ∈ cols ∨ firstPresent textCands cols ≠ none)
            ∧ ("labels" ∈ cols ∨ firstPresent labelCands cols ≠ none))) := by
  refine ⟨column_mapping_eq_firstPresent cols, ?_⟩
  have hiff : schemaCheck cols = Except.error PipeErr.schemaError
      ↔ ¬ ("content" ∈ renameColumns (column_mapping cols) cols
          ∧ "labels" ∈ renameColumns (column_mapping cols) cols) := by
    unfold schemaCheck
    split_ifs with h <;> simp [h]
  rw [hiff, content_mem_renamed, labels_mem_renamed]

/-! ### C8 — the repeated-character collapsing step -/

theorem scanSubF_nil (m : List Char → Option (Nat × List Char)) (fuel : Nat) :
    scanSubF m fuel [] = [] := by
  cases fuel <;> rfl

/-- If the matcher declines every position of `cs`, the scan is the
identity. -/
theorem scanSubF_id (m : List Char → Option (Nat × List Char)) :
    ∀ (cs : List Char) (fuel : Nat), (∀ t ∈ tails cs, m t = none) →
      scanSubF m fuel cs = cs
  | [], fuel, _ => scanSubF_nil m fuel
  | c :: rest, fuel, h => by
    cases fuel with
    | zero => rfl
    | succ f =>
      have hm : m (c :: rest) = none := h _ (by rw [tails]; exact List.mem_cons_self _ _)
      simp only [scanSubF, hm]
      exact congrArg (c :: ·)
        (scanSubF_id m rest f (fun t ht => h t (by rw [tails]; exact List.mem_cons_of_mem _ ht)))

theorem tails_replicate (c : Char) :
    ∀ (n : Nat) (t : List Char), t ∈ tails (List.replicate n c) →
      ∃ k, t = List.replicate k c
  | 0, t, h => by
    rw [List.replicate, tails] at h
    simp at h
    exact ⟨0, h⟩
  | n + 1, t, h => by
    rw [List.replicate_succ, tails] at h
    rcases List.mem_cons.mp h with h1 | h1
    · exact ⟨n + 1, by rw [h1, List.replicate_succ]⟩
    · exact tails_replicate c n t h1

/-- **C8 (counterexample).** Step 3 does not collapse runs of *every*
character: a run of three `!` (not a word character) passes through
unchanged instead of being collapsed to two. -/
theorem c8_counterexample :
    collapseStep "!!!" = "!!!" ∧ ("!!!" : String) ≠ "!!" := by decide

/-- **C8 (amended).** Step 3 collapses any run of 3 or more identical
consecutive *word* characters (`\w`: letters, digits, underscore) down to
exactly 2 — e.g. `"soooo"` becomes `"soo"` — while a run of a non-word
character of any length is left unchanged by this step. -/
theorem c8_collapse_word_runs (c d : Char) (n m : Nat)
    (hw : isWordChar c) (hn : 3 ≤ n) (hd : ¬ isWordChar d) :
    scanSub collapseM (List.replicate n c) = [c, c]
    ∧ scanSub collapseM (List.replicate m d) = List.replicate m d
    ∧ collapseStep "soooo" = "soo" := by
  refine ⟨?_, ?_, by decide⟩
  · obtain ⟨k, rfl⟩ : ∃ k, n = k + 3 := ⟨n - 3, by omega⟩
    show scanSubF collapseM (List.replicate (k + 3) c).length (List.replicate (k + 3) c)
      = [c, c]
    rw [List.length_replicate]
    have e1 : List.replicate (k + 3) c = c :: List.replicate (k + 2) c := rfl
    rw [e1]
    have hm : collapseM (c :: List.replicate (k + 2) c) = some (1 + (k + 2), [c, c]) := by
      rw [collapseM, List.takeWhile_replicate]
      simp [hw]
    rw [show k + 3 = (k + 2) + 1 from rfl]
    simp only [scanSubF, hm]
    have hmax : max (1 + (k + 2)) 1 = (k + 2) + 1 := by omega
    have hdrop : (c :: List.replicate (k + 2) c).drop ((k + 2) + 1) = [] := by
      apply List.drop_eq_nil_of_le; simp
    rw [hmax, hdrop, scanSubF_nil, List.append_nil]
  · apply scanSubF_id
    intro t ht
    obtain ⟨k, rfl⟩ := tails_replicate d m t ht
    cases k with
    | zero => rfl
    | succ j =>
      rw [List.replicate_succ, collapseM]
      rw [if_neg]
      rintro ⟨hword, -⟩
      exact hd hword

/-- Witness for C8 (amended): a run of five `o` collapses to two; a run of
three `!` stays. -/
theorem c8_witness :
    scanSub collapseM (List.replicate 5 'o') = ['o', 'o']
    ∧ scanSub collapseM (List.replicate 3 '!') = List.replicate 3 '!'
    ∧ collapseStep "soooo" = "soo" :=
  c8_collapse_word_runs 'o' '!' 5 3 (by decide) (by decide) (by decide)

/-! ### C9 — character-class facts -/

theorem tokChar_word {c : Char} (h : tokChar c) : isWordChar c := by
  rcases h with h | h
  · exact Or.inl h
  · exact Or.inr (Or.inr (Or.inr h))

theorem wordChar_not_space {c : Char} (h : isWordChar c) : ¬ isSpaceChar c := by
  intro hs
  rcases hs with rfl | rfl | rfl | rfl | rfl | rfl <;> exact absurd h (by decide)

theorem tokChar_not_space {c : Char} (h : tokChar c) : ¬ isSpaceChar c :=
  wordChar_not_space (tokChar_word h)

theorem tokChar_not_digit {c : Char} (h : tokChar c) : ¬ isDigitChar c := by
  rcases h with ⟨h1, _⟩ | rfl
  · rintro ⟨-, h9⟩
    exact absurd (le_trans h1 h9) (by decide)
  · decide

theorem tokChar_lower_fix {c : Char} (h : tokChar c) : pyLowerChar c = c := by
  rcases h with ⟨h1, _⟩ | rfl
  · rw [pyLowerChar, if_neg]
    rintro ⟨-, hZ⟩
    exact absurd (le_trans h1 hZ) (by decide)
  · decide

theorem tokChar_ne_at {c : Char} (h : tokChar c) : c ≠ '@' ∧ c ≠ '#' := by
  rcases h with ⟨h1, h2⟩ | rfl
  · constructor <;> rintro rfl
    · exact absurd h1 (by decide)
    · exact absurd h1 (by decide)
  · decide

theorem wordChar_ne_space {c : Char} (h : isWordChar c) : c ≠ ' ' := by
  rintro rfl
  exact absurd h (by decide)

/-! ### C9 — `leadsWith`, `containsSeq` and `tails` facts -/

theorem leadsWith_iff :
    ∀ (pat t : List Char), leadsWith pat t = true ↔ ∃ u, t = pat ++ u
  | [], t => by simp [leadsWith]
  | p :: ps, [] => by simp [leadsWith]
  | p :: ps, b :: bs => by
    rw [leadsWith, Bool.and_eq_true, beq_iff_eq, leadsWith_iff ps bs]
    constructor
    · rintro ⟨rfl, u, rfl⟩
      exact ⟨u, rfl⟩
    · rintro ⟨u, hu⟩
      rw [List.cons_append] at hu
      cases hu
      exact ⟨rfl, u, rfl⟩

theorem leads_append_sep :
    ∀ (pat a b : List Char), (∀ ch ∈ pat, ch ≠ ' ') →
      leadsWith pat (a ++ ' ' :: b) = true → leadsWith pat a = true
  | [], _, _, _, _ => rfl
  | p :: ps, [], b, hp, h => by
    rw [List.nil_append, leadsWith, Bool.and_eq_true, beq_iff_eq] at h
    exact absurd h.1 (hp p (List.mem_cons_self _ _))
  | p :: ps, x :: a', b, hp, h => by
    rw [List.cons_append, leadsWith, Bool.and_eq_true] at h
    rw [leadsWith, Bool.and_eq_true]
    exact ⟨h.1, leads_append_sep ps a' b (fun ch hch => hp ch (List.mem_cons_of_mem _ hch)) h.2⟩

theorem containsSeq_append_sep :
    ∀ (a b pat : List Char), pat ≠ [] → (∀ ch ∈ pat, ch ≠ ' ') →
      containsSeq pat (a ++ ' ' :: b) = true →
      containsSeq pat a = true ∨ containsSeq pat b = true
  | [], b, pat, hne, hp, h => by
    rw [List.nil_append, containsSeq, Bool.or_eq_true] at h
    rcases h with h | h
    · cases pat with
      | nil => exact absurd rfl hne
      | cons p ps =>
        rw [leadsWith, Bool.and_eq_true, beq_iff_eq] at h
        exact absurd h.1 (hp p (List.mem_cons_self _ _))
    · exact Or.inr h
  | x :: a', b, pat, hne, hp, h => by
    rw [List.cons_append, containsSeq, Bool.or_eq_true] at h
    rcases h with h | h
    · have := leads_append_sep pat (x :: a') b hp h
      left
      rw [containsSeq, Bool.or_eq_true]
      exact Or.inl this
    · rcases containsSeq_append_sep a' b pat hne hp h with h1 | h1
      · left
        rw [containsSeq, Bool.or_eq_true]
        exact Or.inr h1
      · exact Or.inr h1

theorem containsSeq_joinT :
    ∀ (ts : List (List Char)) (pat : List Char), pat ≠ [] →
      (∀ ch ∈ pat, ch ≠ ' ') → containsSeq pat (joinT ts) = true →
      ∃ w ∈ ts, containsSeq pat w = true
  | [], pat, hne, _, h => by
    rw [joinT, containsSeq] at h
    cases pat with
    | nil => exact absurd rfl hne
    | cons p ps => cases h
  | [w], pat, _, _, h => ⟨w, List.mem_cons_self _ _, by rwa [joinT] at h⟩
  | w :: v :: ts, pat, hne, hp, h => by
    rw [joinT] at h
    rcases containsSeq_append_sep w (joinT (v :: ts)) pat hne hp h with h1 | h1
    · exact ⟨w, List.mem_cons_self _ _, h1⟩
    · obtain ⟨u, hu, hcont⟩ := containsSeq_joinT (v :: ts) pat hne hp h1
      exact ⟨u, List.mem_cons_of_mem _ hu, hcont⟩

theorem tails_leads_containsSeq :
    ∀ (cs t pat : List Char), t ∈ tails cs → leadsWith pat t = true →
      containsSeq pat cs = true
  | [], t, pat, ht, h => by
    rw [tails] at ht
    simp at ht
    subst ht
    rwa [containsSeq]
  | c :: r, t, pat, ht, h => by
    rw [tails] at ht
    rcases List.mem_cons.mp ht with rfl | ht1
    · rw [containsSeq, Bool.or_eq_true]
      exact Or.inl h
    · rw [containsSeq, Bool.or_eq_true]
      exact Or.inr (tails_leads_containsSeq r t pat ht1 h)

theorem tails_subset :
    ∀ (cs t : List Char), t ∈ tails cs → ∀ x ∈ t, x ∈ cs
  | [], t, ht, x, hx => by
    rw [tails] at ht
    simp at ht
    subst ht
    cases hx
  | c :: r, t, ht, x, hx => by
    rw [tails] at ht
    rcases List.mem_cons.mp ht with rfl | ht1
    · exact hx
    · exact List.mem_cons_of_mem c (tails_subset r t ht1 x hx)

theorem hasTripleB_of_cons {x : Char} {r : List Char}
    (h : hasTripleB r = true) : hasTripleB (x :: r) = true := by
  match r with
  | [] => cases h
  | [a] => cases h
  | a :: b :: r' =>
    rw [hasTripleB, Bool.or_eq_true]
    exact Or.inr h

theorem containsSeq_triple_hasTriple {c : Char} :
    ∀ (w : List Char), containsSeq [c, c, c] w = true → hasTripleB w = true
  | [], h => by cases h
  | x :: r, h => by
    rw [containsSeq, Bool.or_eq_true] at h
    rcases h with h | h
    · obtain ⟨u, hu⟩ := (leadsWith_iff _ _).mp h
      rw [hu]
      show hasTripleB (c :: c :: c :: u) = true
      rw [hasTripleB, Bool.or_eq_true]
      exact Or.inl (by simp)
    · exact hasTripleB_of_cons (containsSeq_triple_hasTriple r h)

/-! ### C9 — the three cleanup scanners decline every position of a
well-formed token string -/

theorem takeWhile_two {c : Char} :
    ∀ r : List Char, 2 ≤ (r.takeWhile (fun x => x == c)).length →
      ∃ r₃, r = c :: c :: r₃
  | [], h => by simp [List.takeWhile] at h
  | [a], h => by
    by_cases ha : a = c
    · subst ha
      simp [List.takeWhile] at h
    · rw [List.takeWhile_cons_of_neg (by simpa using ha)] at h
      simp at h
  | a :: b :: r', h => by
    by_cases ha : a = c
    · subst ha
      by_cases hb : b = a
      · subst hb
        exact ⟨r', rfl⟩
      · rw [List.takeWhile_cons_of_pos (by simp),
          List.takeWhile_cons_of_neg (by simpa using hb)] at h
        simp at h
    · rw [List.takeWhile_cons_of_neg (by simpa using ha)] at h
      simp at h

theorem urlM_none_on_joinT (ts : List (List Char))
    (hhttp : ∀ w ∈ ts, containsSeq httpPat w = false)
    (htriple : ∀ w ∈ ts, hasTripleB w = false) :
    ∀ t ∈ tails (joinT ts), urlM t = none := by
  intro t ht
  have h1 : leadsWith httpPat t = false := by
    by_contra hc
    rw [Bool.not_eq_false] at hc
    have hcs := tails_leads_containsSeq _ _ _ ht hc
    obtain ⟨w, hw, hcont⟩ :=
      containsSeq_joinT ts httpPat (by decide) (by decide) hcs
    rw [hhttp w hw] at hcont
    cases hcont
  have h2 : leadsWith wwwPat t = false := by
    by_contra hc
    rw [Bool.not_eq_false] at hc
    have hcs := tails_leads_containsSeq _ _ _ ht hc
    obtain ⟨w, hw, hcont⟩ :=
      containsSeq_joinT ts wwwPat (by decide) (by decide) hcs
    have : hasTripleB w = true :=
      containsSeq_triple_hasTriple w (by rwa [show wwwPat = ['w', 'w', 'w'] from rfl] at hcont)
    rw [htriple w hw] at this
    cases this
  simp [urlM, h1, h2]

theorem mentionM_none_on_joinT (ts : List (List Char))
    (htok : ∀ ch ∈ joinT ts, tokChar ch ∨ ch = ' ') :
    ∀ t ∈ tails (joinT ts), mentionM t = none := by
  intro t ht
  cases t with
  | nil => rfl
  | cons c r =>
    have hc : c ∈ joinT ts := tails_subset _ _ ht c (List.mem_cons_self _ _)
    have hne : c ≠ '@' ∧ c ≠ '#' := by
      rcases htok c hc with h | rfl
      · exact tokChar_ne_at h
      · exact ⟨by decide, by decide⟩
    rw [mentionM, if_neg]
    rintro ⟨hat, -⟩
    rcases hat with h | h
    · exact hne.1 h
    · exact hne.2 h

theorem collapseM_none_on_joinT (ts : List (List Char))
    (htriple : ∀ w ∈ ts, hasTripleB w = false) :
    ∀ t ∈ tails (joinT ts), collapseM t = none := by
  intro t ht
  cases t with
  | nil => rfl
  | cons c r =>
    rw [collapseM, if_neg]
    rintro ⟨hword, hlen⟩
    obtain ⟨r₃, rfl⟩ := takeWhile_two r hlen
    have hlead : leadsWith [c, c, c] (c :: c :: c :: r₃) = true := by simp [leadsWith]
    have hcs := tails_leads_containsSeq _ _ _ ht hlead
    have hne : c ≠ ' ' := wordChar_ne_space hword
    obtain ⟨w, hw, hcont⟩ := containsSeq_joinT ts [c, c, c] (by simp)
      (by intro ch hch; simp at hch; subst hch; exact hne) hcs
    have := containsSeq_triple_hasTriple w hcont
    rw [htriple w hw] at this
    cases this

/-! ### C9 — pointwise-fixed maps and filters -/

theorem map_id_of_fix {α : Type} {f : α → α} :
    ∀ l : List α, (∀ x ∈ l, f x = x) → l.map f = l
  | [], _ => rfl
  | x :: r, h => by
    rw [List.map_cons, h x (List.mem_cons_self _ _),
      map_id_of_fix r (fun y hy => h y (List.mem_cons_of_mem _ hy))]

/-! ### C9 — structure of the joined token string -/

theorem data_joinSp :
    ∀ ws : List String, (joinSp ws).data = joinT (ws.map String.data)
  | [] => rfl
  | [w] => rfl
  | w :: v :: ws => by
    show (w ++ " " ++ joinSp (v :: ws)).data = _
    rw [String.data_append, String.data_append, data_joinSp (v :: ws),
      List.append_assoc]
    rfl

theorem mem_joinT :
    ∀ (ts : List (List Char)) (ch : Char), ch ∈ joinT ts →
      (∃ w ∈ ts, ch ∈ w) ∨ ch = ' '
  | [], ch, h => by cases h
  | [w], ch, h => Or.inl ⟨w, List.mem_cons_self _ _, by rwa [joinT] at h⟩
  | w :: v :: ts, ch, h => by
    rw [joinT] at h
    rcases List.mem_append.mp h with h1 | h1
    · exact Or.inl ⟨w, List.mem_cons_self _ _, h1⟩
    · rcases List.mem_cons.mp h1 with rfl | h2
      · exact Or.inr rfl
      · rcases mem_joinT (v :: ts) ch h2 with ⟨u, hu, hmem⟩ | hsp
        · exact Or.inl ⟨u, List.mem_cons_of_mem _ hu, hmem⟩
        · exact Or.inr hsp

theorem joinT_head :
    ∀ (w : List Char) (ts : List (List Char)), ∃ tail, joinT (w :: ts) = w ++ tail
  | w, [] => ⟨[], (List.append_nil w).symm⟩
  | w, v :: ts => ⟨' ' :: joinT (v :: ts), rfl⟩

theorem joinT_ne_nil {w : List Char} {ts : List (List Char)} (hw : w ≠ []) :
    joinT (w :: ts) ≠ [] := by
  obtain ⟨tail, htail⟩ := joinT_head w ts
  rw [htail]
  cases w with
  | nil => exact absurd rfl hw
  | cons c r => simp

theorem joinT_reverse_nonspace :
    ∀ ts : List (List Char),
      (∀ w ∈ ts, w ≠ [] ∧ ∀ ch ∈ w, ¬ isSpaceChar ch) →
      joinT ts = [] ∨ ∃ c r, (joinT ts).reverse = c :: r ∧ ¬ isSpaceChar c
  | [], _ => Or.inl rfl
  | [w], h => by
    right
    cases hr : w.reverse with
    | nil =>
      exact absurd (List.reverse_eq_nil_iff.mp hr) (h w (List.mem_cons_self _ _)).1
    | cons c r =>
      have hc : c ∈ w := by
        rw [← List.mem_reverse, hr]
        exact List.mem_cons_self _ _
      exact ⟨c, r, by rwa [joinT], (h w (List.mem_cons_self _ _)).2 c hc⟩
  | w :: v :: ts, h => by
    right
    have hrec := joinT_reverse_nonspace (v :: ts)
      (fun u hu => h u (List.mem_cons_of_mem _ hu))
    rcases hrec with hnil | ⟨c, r, hrev, hc⟩
    · exact absurd hnil (joinT_ne_nil (h v (List.mem_cons_of_mem _ (List.mem_cons_self _ _))).1)
    · refine ⟨c, r ++ ' ' :: w.reverse, ?_, hc⟩
      rw [joinT, List.reverse_append, List.reverse_cons, List.append_assoc, hrev]
      rfl

/-! ### C9 — whitespace squeezing and stripping fix the token string -/

theorem spaceM_nonspace_consume :
    ∀ (w rest : List Char) (fuel : Nat), (∀ ch ∈ w, ¬ isSpaceChar ch) →
      scanSubF spaceM (w.length + fuel) (w ++ rest) = w ++ scanSubF spaceM fuel rest
  | [], rest, fuel, _ => by simp
  | c :: w', rest, fuel, h => by
    have hc : ¬ isSpaceChar c := h c (List.mem_cons_self _ _)
    have hm : spaceM (c :: (w' ++ rest)) = none := by
      rw [spaceM, if_neg hc]
    rw [show (c :: w').length + fuel = (w'.length + fuel) + 1 by simp [Nat.succ_add]]
    rw [List.cons_append]
    simp only [scanSubF, hm]
    rw [spaceM_nonspace_consume w' rest fuel (fun ch hch => h ch (List.mem_cons_of_mem _ hch))]
    rfl

theorem spaceScan_joinT :
    ∀ ts : List (List Char),
      (∀ w ∈ ts, w ≠ [] ∧ ∀ ch ∈ w, ¬ isSpaceChar ch) →
      ∀ extra, scanSubF spaceM ((joinT ts).length + extra) (joinT ts) = joinT ts
  | [], _, extra => by simp [joinT, scanSubF_nil]
  | [w], h, extra => by
    have hw := h w (List.mem_cons_self _ _)
    rw [joinT]
    have hcons := spaceM_nonspace_consume w [] extra hw.2
    rw [List.append_nil] at hcons
    rw [hcons, scanSubF_nil, List.append_nil]
  | w :: v :: ts, h, extra => by
    have hw := h w (List.mem_cons_self _ _)
    have hv := h v (List.mem_cons_of_mem _ (List.mem_cons_self _ _))
    rw [joinT]
    have hlen : (w ++ ' ' :: joinT (v :: ts)).length + extra
        = w.length + ((joinT (v :: ts)).length + 1 + extra) := by
      simp [List.length_append]
      omega
    rw [hlen]
    rw [spaceM_nonspace_consume w (' ' :: joinT (v :: ts)) _ hw.2]
    congr 1
    obtain ⟨c, v', rfl⟩ : ∃ c v', v = c :: v' := by
      cases v with
      | nil => exact absurd rfl hv.1
      | cons c v' => exact ⟨c, v', rfl⟩
    obtain ⟨tail, htail⟩ := joinT_head (c :: v') ts
    have htw : (joinT ((c :: v') :: ts)).takeWhile (fun x => decide (isSpaceChar x)) = [] := by
      rw [htail, List.cons_append, List.takeWhile_cons_of_neg]
      simp [hv.2 c (List.mem_cons_self _ _)]
    have hm : spaceM (' ' :: joinT ((c :: v') :: ts)) = some (1, [' ']) := by
      rw [spaceM, if_pos (show isSpaceChar ' ' by decide), htw]
      rfl
    have hstep : (joinT ((c :: v') :: ts)).length + 1 + extra
        = ((joinT ((c :: v') :: ts)).length + extra) + 1 := by omega
    rw [hstep]
    simp only [scanSubF, hm]
    rw [show max 1 1 = 1 from rfl]
    rw [show (' ' :: joinT ((c :: v') :: ts)).drop 1 = joinT ((c :: v') :: ts) from rfl]
    rw [spaceScan_joinT ((c :: v') :: ts) (fun u hu => h u (List.mem_cons_of_mem _ hu)) extra]
    rfl

theorem pyStrip_joinT (ts : List (List Char))
    (h : ∀ w ∈ ts, w ≠ [] ∧ ∀ ch ∈ w, ¬ isSpaceChar ch) :
    pyStrip (joinT ts) = joinT ts := by
  cases hts : ts with
  | nil => rfl
  | cons w ts' =>
    have hw := h w (hts ▸ List.mem_cons_self _ _)
    obtain ⟨c, w', rfl⟩ : ∃ c w', w = c :: w' := by
      cases w with
      | nil => exact absurd rfl hw.1
      | cons c w' => exact ⟨c, w', rfl⟩
    obtain ⟨tail, htail⟩ := joinT_head (c :: w') ts'
    have hhead : joinT ((c :: w') :: ts') = c :: (w' ++ tail) := by
      rw [htail]; rfl
    rw [pyStrip, hhead, List.dropWhile_cons_of_neg
      (by simp [hw.2 c (List.mem_cons_self _ _)])]
    rw [← hhead]
    rcases joinT_reverse_nonspace ((c :: w') :: ts') (hts ▸ h) with hnil | ⟨b, r, hrev, hb⟩
    · rw [hnil] at hhead
      cases hhead
    · rw [hrev, List.dropWhile_cons_of_neg (by simp [hb]), ← hrev,
        List.reverse_reverse]

theorem pySplitAux_word :
    ∀ (w rest acc : List Char), (∀ ch ∈ w, ¬ isSpaceChar ch) →
      pySplitAux (w ++ rest) acc = pySplitAux rest (w.reverse ++ acc)
  | [], rest, acc, _ => by simp
  | c :: w', rest, acc, h => by
    rw [List.cons_append, pySplitAux, if_neg (h c (List.mem_cons_self _ _))]
    rw [pySplitAux_word w' rest (c :: acc) (fun ch hch => h ch (List.mem_cons_of_mem _ hch))]
    rw [List.reverse_cons, List.append_assoc]
    rfl

theorem pySplit_joinT :
    ∀ ts : List (List Char),
      (∀ w ∈ ts, w ≠ [] ∧ ∀ ch ∈ w, ¬ isSpaceChar ch) →
      pySplit (joinT ts) = ts
  | [], _ => rfl
  | [w], h => by
    have hw := h w (List.mem_cons_self _ _)
    rw [joinT, pySplit, show w = w ++ [] from (List.append_nil w).symm,
      pySplitAux_word w [] [] hw.2, List.append_nil, List.append_nil]
    cases hr : w.reverse with
    | nil => exact absurd (List.reverse_eq_nil_iff.mp hr) hw.1
    | cons c r =>
      have he : pySplitAux [] (c :: r) = [(c :: r).reverse] := by
        rw [pySplitAux, if_neg (by simp)]
      rw [he, ← hr, List.reverse_reverse]
  | w :: v :: ts, h => by
    have hw := h w (List.mem_cons_self _ _)
    have hv := h v (List.mem_cons_of_mem _ (List.mem_cons_self _ _))
    rw [joinT, pySplit, pySplitAux_word w (' ' :: joinT (v :: ts)) [] hw.2,
      List.append_nil]
    cases hr : w.reverse with
    | nil => exact absurd (List.reverse_eq_nil_iff.mp hr) hw.1
    | cons c r =>
      have he : pySplitAux (' ' :: joinT (v :: ts)) (c :: r)
          = (c :: r).reverse :: pySplitAux (joinT (v :: ts)) [] := by
        rw [pySplitAux, if_pos (show isSpaceChar ' ' by decide), if_neg (by simp)]
      have hrec := pySplit_joinT (v :: ts) (fun u hu => h u (List.mem_cons_of_mem _ hu))
      rw [pySplit] at hrec
      rw [he, hrec, ← hr, List.reverse_reverse]

/-! ### C9 — the theorems -/

/-- **C9 (counterexample).** Normalization is not idempotent on its own
image: `"htttpx"` (raw) normalizes to the already-normalized token
`"httpx"` — the run-collapsing step manufactures the `http` prefix *after*
the URL-stripping step has run — and a second normalization pass strips
`"httpx"` as a URL, yielding `""` ≠ `"httpx"`.  (Spell checking is off for
this instance; the lemmatizer returns the out-of-vocabulary token
unchanged, as WordNet does.) -/
theorem c9_counterexample :
    preprocessStr exDetector "htttpx" = "httpx"
    ∧ preprocessStr exDetector (preprocessStr exDetector "htttpx")
        ≠ preprocessStr exDetector "htttpx" := by decide

/-- **C9 (amended).** A normalization pass is the identity on every
already-normalized token string whose tokens are, in addition, free of the
two re-triggering artefacts exhibited by the counterexample: each token is
longer than 2, not a stopword, a fixed point of the lemmatizer, built from
lowercase word characters, and contains no `http` fragment and no run of
three identical characters; spell checking is off (the corrector is an
external component with no stability guarantee). -/
theorem c9_normalize_idem (d : HateSpeechDetector) (ws : List String)
    (hspell : d.use_spell_check = false)
    (htok : ∀ w ∈ ws, goodToken d w) :
    preprocessStr d (joinSp ws) = joinSp ws := by
  classical
  set ts : List (List Char) := ws.map String.data with hts
  have hfacts : ∀ t ∈ ts, t ≠ [] ∧ (∀ ch ∈ t, tokChar ch)
      ∧ hasTripleB t = false ∧ containsSeq httpPat t = false := by
    intro t ht
    obtain ⟨w, hw, rfl⟩ := List.mem_map.mp ht
    obtain ⟨hlen, -, -, hchars, htrip, hhttp⟩ := htok w hw
    refine ⟨?_, hchars, htrip, hhttp⟩
    intro hnil
    rw [show w.length = w.data.length from rfl, hnil] at hlen
    simp at hlen
  have hchars : ∀ ch ∈ joinT ts, tokChar ch ∨ ch = ' ' := by
    intro ch hch
    rcases mem_joinT ts ch hch with ⟨w, hw, hmem⟩ | hsp
    · exact Or.inl ((hfacts w hw).2.1 ch hmem)
    · exact Or.inr hsp
  have hnsp : ∀ w ∈ ts, w ≠ [] ∧ ∀ ch ∈ w, ¬ isSpaceChar ch := by
    intro w hw
    exact ⟨(hfacts w hw).1, fun ch hch => tokChar_not_space ((hfacts w hw).2.1 ch hch)⟩
  have hdata : (joinSp ws).data = joinT ts := data_joinSp ws
  have hlow : (joinT ts).map pyLowerChar = joinT ts := by
    apply map_id_of_fix
    intro ch hch
    rcases hchars ch hch with h | rfl
    · exact tokChar_lower_fix h
    · decide
  have hurl : scanSub urlM (joinT ts) = joinT ts :=
    scanSubF_id urlM (joinT ts) _
      (urlM_none_on_joinT ts (fun w hw => (hfacts w hw).2.2.2)
        (fun w hw => (hfacts w hw).2.2.1))
  have hmen : scanSub mentionM (joinT ts) = joinT ts :=
    scanSubF_id mentionM (joinT ts) _ (mentionM_none_on_joinT ts hchars)
  have hcol : scanSub collapseM (joinT ts) = joinT ts :=
    scanSubF_id collapseM (joinT ts) _
      (collapseM_none_on_joinT ts (fun w hw => (hfacts w hw).2.2.1))
  have hpunct : (joinT ts).map
      (fun c => if isWordChar c ∨ isSpaceChar c then c else ' ') = joinT ts := by
    apply map_id_of_fix
    intro ch hch
    rcases hchars ch hch with h | rfl
    · rw [if_pos (Or.inl (tokChar_word h))]
    · rw [if_pos (Or.inr (by decide))]
  have hdig : (joinT ts).filter (fun c => decide (¬ isDigitChar c)) = joinT ts := by
    apply List.filter_eq_self.mpr
    intro ch hch
    rcases hchars ch hch with h | rfl
    · simpa using tokChar_not_digit h
    · decide
  have hsqueeze : scanSub spaceM (joinT ts) = joinT ts := by
    have := spaceScan_joinT ts hnsp 0
    rwa [Nat.add_zero] at this
  have hstrip : pyStrip (joinT ts) = joinT ts := pyStrip_joinT ts hnsp
  have hsplit : pySplit (joinT ts) = ts := pySplit_joinT ts hnsp
  have hmk : ts.map String.mk = ws := by
    rw [hts, List.map_map]
    exact map_id_of_fix ws (fun w _ => rfl)
  have hfil : ws.filter (fun w => decide (w ∉ d.stop_words ∧ 2 < w.length)) = ws := by
    apply List.filter_eq_self.mpr
    intro w hw
    obtain ⟨hlen, hsw, -, -, -, -⟩ := htok w hw
    simp [hsw, hlen]
  have hlem : ws.map d.lemmatize = ws := by
    apply map_id_of_fix
    intro w hw
    exact (htok w hw).2.2.1
  rw [preprocessStr, hdata, hlow, hurl, hmen, hcol, hpunct, hspell]
  simp only [Bool.false_eq_true, if_false]
  rw [hdig, hsqueeze, hstrip, hsplit, hmk, hfil, hlem]

/-- Witness for C9 (amended): normalizing the already-normalized
`"good dog"` again changes nothing. -/
theorem c9_witness :
    preprocessStr exDetector (joinSp ["good", "dog"]) = joinSp ["good", "dog"] :=
  c9_normalize_idem exDetector ["good", "dog"] rfl (by decide)

end VssutVibes
